import Mathlib

set_option maxRecDepth 4000

/-!
# Vaultix milestone escrow — shallow embedding and verification

Shallow embedding of `src/apps/onchain/src/lib.rs` (Soroban contract
`VaultixEscrow`).  Soroban `Address` and `Symbol` values are opaque
identifiers with decidable equality; we model `Address` as `Nat` and
`Symbol` as `String`.  `i128` is modelled as `Int` with explicit range
checks where the source uses `checked_add`.  `require_auth` is a host
capability that traps (it never returns an `Err` to the contract), so the
embedding covers the executions in which authorization succeeds; all
`Result`-level error paths of the source are modelled exactly.
The persistent storage is a record `Store` with one slot per escrow id and
one admin slot; each contract entry point is a function
`Store → Except Error Store` whose single write happens at the `.ok`.
-/

/-- Milestone status tracking (`MilestoneStatus` in the source). -/
inductive MilestoneStatus
  | Pending
  | Released
  | Disputed
deriving DecidableEq, Repr

/-- Individual milestone in an escrow (`Milestone` in the source). -/
structure Milestone where
  amount : Int
  status : MilestoneStatus
  description : String
deriving DecidableEq, Repr

/-- Overall escrow status (`EscrowStatus` in the source). -/
inductive EscrowStatus
  | Active
  | Completed
  | Cancelled
  | Disputed
  | Resolved
deriving DecidableEq, Repr

/-- Dispute resolution outcome (`Resolution` in the source). -/
inductive Resolution
  | None
  | Depositor
  | Recipient
deriving DecidableEq, Repr

/-- Main escrow structure (`Escrow` in the source). -/
structure Escrow where
  depositor : Nat
  recipient : Nat
  total_amount : Int
  total_released : Int
  milestones : List Milestone
  status : EscrowStatus
  resolution : Resolution
deriving DecidableEq, Repr

/-- Contract error types (`Error` in the source). -/
inductive Error
  | EscrowNotFound
  | EscrowAlreadyExists
  | MilestoneNotFound
  | MilestoneAlreadyReleased
  | UnauthorizedAccess
  | InvalidMilestoneAmount
  | TotalAmountMismatch
  | InsufficientBalance
  | EscrowNotActive
  | VectorTooLarge
  | AdminNotInitialized
  | AlreadyInitialized
  | InvalidEscrowStatus
  | AlreadyInDispute
  | InvalidWinner
deriving DecidableEq, Repr

/-- Smallest value of the source's `i128` type. -/
def i128Min : Int := -(2 ^ 127)

/-- Largest value of the source's `i128` type. -/
def i128Max : Int := 2 ^ 127 - 1

/-- `i128::checked_add`: the sum when it fits in `i128`, `none` on overflow. -/
def checked_add (a b : Int) : Option Int :=
  if i128Min ≤ a + b ∧ a + b ≤ i128Max then some (a + b) else none

/-- The persistent storage visible to the contract: the `("escrow", id)`
keyspace and the `"admin"` singleton slot. -/
structure Store where
  escrows : Nat → Option Escrow
  admin : Option Nat

/-- `env.storage().persistent().set(&get_storage_key(id), &e)`. -/
def setEscrow (s : Store) (id : Nat) (e : Escrow) : Store :=
  { s with escrows := fun k => if k = id then some e else s.escrows k }

/-- The storage before any operation has run: no escrows, no admin. -/
def initialStore : Store :=
  { escrows := fun _ => none, admin := none }

/-- Loop body of `validate_milestones`: fold over the milestones, rejecting
non-positive amounts and accumulating the total with `checked_add`. -/
def validateTotal : List Milestone → Int → Except Error Int
  | [], total => .ok total
  | m :: rest, total =>
    if m.amount ≤ 0 then .error .InvalidMilestoneAmount
    else
      match checked_add total m.amount with
      | none => .error .InvalidMilestoneAmount
      | some t => validateTotal rest t

/-- `validate_milestones` from the source: rejects vectors longer than 20,
then validates each amount and returns the checked total. -/
def validate_milestones (milestones : List Milestone) : Except Error Int :=
  if milestones.length > 20 then .error .VectorTooLarge
  else validateTotal milestones 0

/-- `verify_all_released` from the source. -/
def verify_all_released (milestones : List Milestone) : Bool :=
  milestones.all (fun m => m.status = .Released)

namespace VaultixEscrow

/-- `VaultixEscrow::init`. -/
def init (s : Store) (admin : Nat) : Except Error Store :=
  if s.admin.isSome then .error .AlreadyInitialized
  else .ok { s with admin := some admin }

/-- `VaultixEscrow::create_escrow`. -/
def create_escrow (s : Store) (escrow_id : Nat) (depositor recipient : Nat)
    (milestones : List Milestone) : Except Error Store :=
  if (s.escrows escrow_id).isSome then .error .EscrowAlreadyExists
  else
    match validate_milestones milestones with
    | .error e => .error e
    | .ok total_amount =>
      let initialized_milestones :=
        milestones.map (fun m => { m with status := .Pending })
      let escrow : Escrow :=
        { depositor := depositor
          recipient := recipient
          total_amount := total_amount
          total_released := 0
          milestones := initialized_milestones
          status := .Active
          resolution := .None }
      .ok (setEscrow s escrow_id escrow)

/-- `VaultixEscrow::release_milestone`. -/
def release_milestone (s : Store) (escrow_id : Nat) (milestone_index : Nat) :
    Except Error Store :=
  match s.escrows escrow_id with
  | none => .error .EscrowNotFound
  | some escrow =>
    if escrow.status ≠ .Active then .error .EscrowNotActive
    else if milestone_index ≥ escrow.milestones.length then .error .MilestoneNotFound
    else
      match escrow.milestones[milestone_index]? with
      | none => .error .MilestoneNotFound
      | some milestone =>
        if milestone.status = .Released then .error .MilestoneAlreadyReleased
        else
          let milestone' := { milestone with status := .Released }
          let escrow' :=
            { escrow with
                milestones := escrow.milestones.set milestone_index milestone' }
          match checked_add escrow'.total_released milestone.amount with
          | none => .error .InvalidMilestoneAmount
          | some t =>
            .ok (setEscrow s escrow_id { escrow' with total_released := t })

/-- `VaultixEscrow::raise_dispute`. -/
def raise_dispute (s : Store) (escrow_id : Nat) (caller : Nat) :
    Except Error Store :=
  match s.escrows escrow_id with
  | none => .error .EscrowNotFound
  | some escrow =>
    if caller ≠ escrow.depositor ∧ caller ≠ escrow.recipient then
      .error .UnauthorizedAccess
    else if escrow.status = .Disputed then .error .AlreadyInDispute
    else if escrow.status ≠ .Active then .error .InvalidEscrowStatus
    else
      let updated_milestones := escrow.milestones.map (fun m =>
        if m.status = .Pending then { m with status := .Disputed } else m)
      .ok (setEscrow s escrow_id
        { escrow with
            milestones := updated_milestones
            status := .Disputed
            resolution := .None })

/-- `VaultixEscrow::resolve_dispute`. -/
def resolve_dispute (s : Store) (escrow_id : Nat) (winner : Nat) :
    Except Error Store :=
  match s.admin with
  | none => .error .AdminNotInitialized
  | some _ =>
    match s.escrows escrow_id with
    | none => .error .EscrowNotFound
    | some escrow =>
      if escrow.status ≠ .Disputed then .error .InvalidEscrowStatus
      else if winner ≠ escrow.depositor ∧ winner ≠ escrow.recipient then
        .error .InvalidWinner
      else if winner = escrow.recipient then
        let updated_milestones := escrow.milestones.map (fun m =>
          if m.status ≠ .Released then { m with status := .Released } else m)
        .ok (setEscrow s escrow_id
          { escrow with
              milestones := updated_milestones
              total_released := escrow.total_amount
              resolution := .Recipient
              status := .Resolved })
      else
        let updated_milestones := escrow.milestones.map (fun m =>
          if m.status = .Pending ∨ m.status = .Disputed then
            { m with status := .Disputed }
          else m)
        .ok (setEscrow s escrow_id
          { escrow with
              milestones := updated_milestones
              resolution := .Depositor
              status := .Resolved })

/-- `VaultixEscrow::get_escrow`: pure read. -/
def get_escrow (s : Store) (escrow_id : Nat) : Except Error Escrow :=
  match s.escrows escrow_id with
  | none => .error .EscrowNotFound
  | some escrow => .ok escrow

/-- `VaultixEscrow::cancel_escrow`. -/
def cancel_escrow (s : Store) (escrow_id : Nat) : Except Error Store :=
  match s.escrows escrow_id with
  | none => .error .EscrowNotFound
  | some escrow =>
    if escrow.status ≠ .Active then .error .InvalidEscrowStatus
    else if escrow.total_released > 0 then .error .MilestoneAlreadyReleased
    else .ok (setEscrow s escrow_id { escrow with status := .Cancelled })

/-- `VaultixEscrow::complete_escrow`. -/
def complete_escrow (s : Store) (escrow_id : Nat) : Except Error Store :=
  match s.escrows escrow_id with
  | none => .error .EscrowNotFound
  | some escrow =>
    if escrow.status ≠ .Active then .error .InvalidEscrowStatus
    else if ¬ verify_all_released escrow.milestones then .error .EscrowNotActive
    else .ok (setEscrow s escrow_id { escrow with status := .Completed })

end VaultixEscrow

/-- One invocation of a contract entry point with its arguments. -/
inductive Op
  | init (admin : Nat)
  | create (id depositor recipient : Nat) (ms : List Milestone)
  | release (id index : Nat)
  | dispute (id caller : Nat)
  | resolve (id winner : Nat)
  | cancel (id : Nat)
  | complete (id : Nat)
  | get (id : Nat)

/-- Dispatch an operation; `get` commits no write, so success keeps the
store as loaded. -/
def runOp (s : Store) : Op → Except Error Store
  | .init a => VaultixEscrow.init s a
  | .create id d r ms => VaultixEscrow.create_escrow s id d r ms
  | .release id idx => VaultixEscrow.release_milestone s id idx
  | .dispute id c => VaultixEscrow.raise_dispute s id c
  | .resolve id w => VaultixEscrow.resolve_dispute s id w
  | .cancel id => VaultixEscrow.cancel_escrow s id
  | .complete id => VaultixEscrow.complete_escrow s id
  | .get id =>
    match VaultixEscrow.get_escrow s id with
    | .ok _ => .ok s
    | .error e => .error e

/-- The store after one operation: the committed store on success, the
unchanged store on failure (a failed operation writes nothing). -/
def step (s : Store) (op : Op) : Store :=
  match runOp s op with
  | .ok s' => s'
  | .error _ => s

/-- The store after a sequence of operations starting from `s`. -/
def runOps (s : Store) : List Op → Store
  | [] => s
  | op :: rest => runOps (step s op) rest

/-- A store is reachable when some sequence of operations produces it from
the empty storage. -/
def Reachable (s : Store) : Prop :=
  ∃ ops : List Op, s = runOps initialStore ops

/-! ## Milestone-amount bookkeeping -/

/-- Sum of all milestone amounts (the quantity `validate_milestones`
computes and `create_escrow` stores as `total_amount`). -/
def amountSum : List Milestone → Int
  | [] => 0
  | m :: rest => m.amount + amountSum rest

/-- Sum of the amounts of milestones whose status is `Released` (the
quantity `total_released` tracks). -/
def releasedSum : List Milestone → Int
  | [] => 0
  | m :: rest =>
    (if m.status = .Released then m.amount else 0) + releasedSum rest

theorem releasedSum_nonneg (ms : List Milestone)
    (h : ∀ m ∈ ms, 0 < m.amount) : 0 ≤ releasedSum ms := by
  induction ms with
  | nil => simp [releasedSum]
  | cons m rest ih =>
    have hm := h m (List.mem_cons_self m rest)
    have hr := ih (fun x hx => h x (List.mem_cons_of_mem m hx))
    by_cases hs : m.status = .Released <;>
      simp [releasedSum, hs] <;> omega

theorem releasedSum_le_amountSum (ms : List Milestone)
    (h : ∀ m ∈ ms, 0 < m.amount) : releasedSum ms ≤ amountSum ms := by
  induction ms with
  | nil => simp [releasedSum, amountSum]
  | cons m rest ih =>
    have hm := h m (List.mem_cons_self m rest)
    have hr := ih (fun x hx => h x (List.mem_cons_of_mem m hx))
    by_cases hs : m.status = .Released <;>
      simp [releasedSum, amountSum, hs] <;> omega

/-- The loop of `validate_milestones`: on success the returned total is the
accumulator plus the amount sum, every amount is positive, and the total
stays within the `i128` range it was checked against. -/
theorem validateTotal_ok (ms : List Milestone) (acc t : Int)
    (h : validateTotal ms acc = .ok t) :
    t = acc + amountSum ms ∧ (∀ m ∈ ms, 0 < m.amount) ∧
      (acc ≤ i128Max → t ≤ i128Max) := by
  induction ms generalizing acc with
  | nil =>
    simp [validateTotal] at h
    simp [amountSum, h]
  | cons m rest ih =>
    simp only [validateTotal] at h
    by_cases hm : m.amount ≤ 0
    · simp [hm] at h
    · rw [if_neg hm] at h
      unfold checked_add at h
      by_cases hrange : i128Min ≤ acc + m.amount ∧ acc + m.amount ≤ i128Max
      · rw [if_pos hrange] at h
        obtain ⟨h1, h2, h3⟩ := ih (acc + m.amount) h
        refine ⟨by rw [h1, amountSum]; ring, ?_, ?_⟩
        · intro x hx
          rcases List.mem_cons.mp hx with rfl | hx
          · omega
          · exact h2 x hx
        · intro _; exact h3 hrange.2
      · rw [if_neg hrange] at h
        simp at h

/-- `validate_milestones` on success returns exactly the amount sum, with
every amount positive and the sum within `i128` range. -/
theorem validate_milestones_ok (ms : List Milestone) (t : Int)
    (h : validate_milestones ms = .ok t) :
    t = amountSum ms ∧ (∀ m ∈ ms, 0 < m.amount) ∧
      ms.length ≤ 20 ∧ t ≤ i128Max := by
  unfold validate_milestones at h
  by_cases hlen : ms.length > 20
  · simp [hlen] at h
  · rw [if_neg hlen] at h
    obtain ⟨h1, h2, h3⟩ := validateTotal_ok ms 0 t h
    refine ⟨by omega, h2, by omega, h3 (by unfold i128Max; positivity)⟩

theorem amountSum_map_of_amount_eq (ms : List Milestone)
    (f : Milestone → Milestone) (hf : ∀ m, (f m).amount = m.amount) :
    amountSum (ms.map f) = amountSum ms := by
  induction ms with
  | nil => rfl
  | cons m rest ih => simp [amountSum, ih, hf]

theorem pos_amount_map (ms : List Milestone) (f : Milestone → Milestone)
    (hf : ∀ m, (f m).amount = m.amount) (h : ∀ m ∈ ms, 0 < m.amount) :
    ∀ m ∈ ms.map f, 0 < m.amount := by
  intro x hx
  obtain ⟨m, hm, rfl⟩ := List.mem_map.mp hx
  rw [hf]; exact h m hm

/-- A map that keeps every amount and keeps the `Released` flag keeps the
released sum (used for `raise_dispute` and the depositor branch of
`resolve_dispute`). -/
theorem releasedSum_map_of_preserved (ms : List Milestone)
    (f : Milestone → Milestone) (hf : ∀ m, (f m).amount = m.amount)
    (hs : ∀ m, ((f m).status = .Released ↔ m.status = .Released)) :
    releasedSum (ms.map f) = releasedSum ms := by
  induction ms with
  | nil => rfl
  | cons m rest ih =>
    by_cases h : m.status = .Released
    · simp [releasedSum, ih, hf, (hs m).mpr h, h]
    · have : ¬ (f m).status = .Released := fun hc => h ((hs m).mp hc)
      simp [releasedSum, ih, this, h]

/-- A map that forces every status to `Released` while keeping the amounts
makes the released sum equal to the amount sum (recipient branch of
`resolve_dispute`). -/
theorem releasedSum_map_of_forced (ms : List Milestone)
    (f : Milestone → Milestone) (hf : ∀ m, (f m).amount = m.amount)
    (hs : ∀ m, (f m).status = .Released) :
    releasedSum (ms.map f) = amountSum ms := by
  induction ms with
  | nil => rfl
  | cons m rest ih => simp [releasedSum, amountSum, ih, hf, hs]

theorem amountSum_set (ms : List Milestone) (i : Nat) (m m' : Milestone)
    (hget : ms[i]? = some m) (ha : m'.amount = m.amount) :
    amountSum (ms.set i m') = amountSum ms := by
  induction ms generalizing i with
  | nil => simp at hget
  | cons x rest ih =>
    cases i with
    | zero =>
      simp at hget
      subst hget
      simp [amountSum, ha]
    | succ n =>
      simp at hget
      simp [amountSum, ih n hget]

theorem pos_amount_set (ms : List Milestone) (i : Nat) (m m' : Milestone)
    (hget : ms[i]? = some m) (ha : m'.amount = m.amount)
    (h : ∀ x ∈ ms, 0 < x.amount) : ∀ x ∈ ms.set i m', 0 < x.amount := by
  intro x hx
  rcases List.mem_or_eq_of_mem_set hx with hx | rfl
  · exact h x hx
  · rw [ha]
    exact h m (List.getElem?_mem hget)

/-- Setting a not-yet-released milestone to `Released` adds exactly its
amount to the released sum. -/
theorem releasedSum_set_release (ms : List Milestone) (i : Nat)
    (m : Milestone) (hget : ms[i]? = some m)
    (hnr : m.status ≠ .Released) :
    releasedSum (ms.set i { m with status := .Released }) =
      releasedSum ms + m.amount := by
  induction ms generalizing i with
  | nil => simp at hget
  | cons x rest ih =>
    cases i with
    | zero =>
      simp at hget
      subst hget
      simp [releasedSum, hnr]
      ring
    | succ n =>
      simp at hget
      simp [releasedSum, ih n hget]
      ring

/-! ## Storage lookup facts -/

theorem setEscrow_self (s : Store) (id : Nat) (e : Escrow) :
    (setEscrow s id e).escrows id = some e := by
  simp [setEscrow]

theorem setEscrow_other (s : Store) (id id' : Nat) (e : Escrow)
    (h : id' ≠ id) : (setEscrow s id e).escrows id' = s.escrows id' := by
  simp [setEscrow, h]

theorem setEscrow_admin (s : Store) (id : Nat) (e : Escrow) :
    (setEscrow s id e).admin = s.admin := rfl

namespace VaultixEscrow

/-! ## Success characterizations of the entry points -/

theorem init_ok (s : Store) (a : Nat) (s' : Store)
    (h : init s a = .ok s') :
    s.admin = none ∧ s' = { s with admin := some a } := by
  unfold init at h
  by_cases ha : s.admin.isSome
  · simp [ha] at h
  · rw [if_neg ha] at h
    exact ⟨Option.not_isSome_iff_eq_none.mp ha, (Except.ok.injEq _ _).mp h |>.symm⟩

theorem create_escrow_ok (s : Store) (id d r : Nat) (ms : List Milestone)
    (s' : Store) (h : create_escrow s id d r ms = .ok s') :
    s.escrows id = none ∧ ∃ t, validate_milestones ms = .ok t ∧
      s' = setEscrow s id
        { depositor := d
          recipient := r
          total_amount := t
          total_released := 0
          milestones := ms.map (fun m => { m with status := .Pending })
          status := .Active
          resolution := .None } := by
  unfold create_escrow at h
  by_cases hex : (s.escrows id).isSome
  · simp [hex] at h
  · rw [if_neg hex] at h
    cases hv : validate_milestones ms with
    | error e => rw [hv] at h; simp at h
    | ok t =>
      rw [hv] at h
      simp only [Except.ok.injEq] at h
      exact ⟨Option.not_isSome_iff_eq_none.mp hex, t, rfl, h.symm⟩

theorem release_milestone_ok (s : Store) (id idx : Nat) (s' : Store)
    (h : release_milestone s id idx = .ok s') :
    ∃ e m t, s.escrows id = some e ∧ e.status = .Active ∧
      e.milestones[idx]? = some m ∧ m.status ≠ .Released ∧
      checked_add e.total_released m.amount = some t ∧
      s' = setEscrow s id
        { e with
            milestones := e.milestones.set idx { m with status := .Released }
            total_released := t } := by
  unfold release_milestone at h
  cases hs : s.escrows id with
  | none => rw [hs] at h; simp at h
  | some e =>
    rw [hs] at h
    dsimp only at h
    by_cases hact : e.status ≠ .Active
    · simp [hact] at h
    · rw [if_neg hact] at h
      push_neg at hact
      by_cases hlen : idx ≥ e.milestones.length
      · simp [hlen] at h
      · rw [if_neg hlen] at h
        cases hm : e.milestones[idx]? with
        | none => rw [hm] at h; simp at h
        | some m =>
          rw [hm] at h
          dsimp only at h
          by_cases hrel : m.status = .Released
          · simp [hrel] at h
          · rw [if_neg hrel] at h
            cases hadd : checked_add e.total_released m.amount with
            | none => rw [hadd] at h; simp at h
            | some t =>
              rw [hadd] at h
              simp only [Except.ok.injEq] at h
              exact ⟨e, m, t, rfl, hact, hm, hrel, hadd, h.symm⟩

theorem raise_dispute_ok (s : Store) (id c : Nat) (s' : Store)
    (h : raise_dispute s id c = .ok s') :
    ∃ e, s.escrows id = some e ∧ (c = e.depositor ∨ c = e.recipient) ∧
      e.status = .Active ∧
      s' = setEscrow s id
        { e with
            milestones := e.milestones.map (fun m =>
              if m.status = .Pending then { m with status := .Disputed } else m)
            status := .Disputed
            resolution := .None } := by
  unfold raise_dispute at h
  cases hs : s.escrows id with
  | none => rw [hs] at h; simp at h
  | some e =>
    rw [hs] at h
    dsimp only at h
    by_cases hauth : c ≠ e.depositor ∧ c ≠ e.recipient
    · simp [hauth] at h
    · rw [if_neg hauth] at h
      by_cases hd : e.status = .Disputed
      · simp [hd] at h
      · rw [if_neg hd] at h
        by_cases hact : e.status ≠ .Active
        · simp [hact] at h
        · rw [if_neg hact] at h
          push_neg at hact
          simp only [Except.ok.injEq] at h
          refine ⟨e, rfl, ?_, hact, h.symm⟩
          by_cases hcd : c = e.depositor
          · exact Or.inl hcd
          · exact Or.inr (by tauto)

theorem resolve_dispute_ok (s : Store) (id w : Nat) (s' : Store)
    (h : resolve_dispute s id w = .ok s') :
    ∃ a e, s.admin = some a ∧ s.escrows id = some e ∧
      e.status = .Disputed ∧ (w = e.depositor ∨ w = e.recipient) ∧
      ((w = e.recipient ∧
        s' = setEscrow s id
          { e with
              milestones := e.milestones.map (fun m =>
                if m.status ≠ .Released then { m with status := .Released }
                else m)
              total_released := e.total_amount
              resolution := .Recipient
              status := .Resolved }) ∨
       (w ≠ e.recipient ∧ w = e.depositor ∧
        s' = setEscrow s id
          { e with
              milestones := e.milestones.map (fun m =>
                if m.status = .Pending ∨ m.status = .Disputed then
                  { m with status := .Disputed }
                else m)
              resolution := .Depositor
              status := .Resolved })) := by
  unfold resolve_dispute at h
  cases ha : s.admin with
  | none => rw [ha] at h; simp at h
  | some a =>
    rw [ha] at h
    dsimp only at h
    cases hs : s.escrows id with
    | none => rw [hs] at h; simp at h
    | some e =>
      rw [hs] at h
      dsimp only at h
      by_cases hd : e.status ≠ .Disputed
      · simp [hd] at h
      · rw [if_neg hd] at h
        push_neg at hd
        by_cases hw : w ≠ e.depositor ∧ w ≠ e.recipient
        · simp [hw] at h
        · rw [if_neg hw] at h
          by_cases hrec : w = e.recipient
          · rw [if_pos hrec] at h
            simp only [Except.ok.injEq] at h
            exact ⟨a, e, rfl, rfl, hd, Or.inr hrec, Or.inl ⟨hrec, h.symm⟩⟩
          · rw [if_neg hrec] at h
            simp only [Except.ok.injEq] at h
            have hdep : w = e.depositor := by tauto
            exact ⟨a, e, rfl, rfl, hd, Or.inl hdep,
              Or.inr ⟨hrec, hdep, h.symm⟩⟩

theorem cancel_escrow_ok (s : Store) (id : Nat) (s' : Store)
    (h : cancel_escrow s id = .ok s') :
    ∃ e, s.escrows id = some e ∧ e.status = .Active ∧
      ¬ e.total_released > 0 ∧
      s' = setEscrow s id { e with status := .Cancelled } := by
  unfold cancel_escrow at h
  cases hs : s.escrows id with
  | none => rw [hs] at h; simp at h
  | some e =>
    rw [hs] at h
    dsimp only at h
    by_cases hact : e.status ≠ .Active
    · simp [hact] at h
    · rw [if_neg hact] at h
      push_neg at hact
      by_cases hrel : e.total_released > 0
      · simp [hrel] at h
      · rw [if_neg hrel] at h
        simp only [Except.ok.injEq] at h
        exact ⟨e, rfl, hact, hrel, h.symm⟩

theorem complete_escrow_ok (s : Store) (id : Nat) (s' : Store)
    (h : complete_escrow s id = .ok s') :
    ∃ e, s.escrows id = some e ∧ e.status = .Active ∧
      verify_all_released e.milestones = true ∧
      s' = setEscrow s id { e with status := .Completed } := by
  unfold complete_escrow at h
  cases hs : s.escrows id with
  | none => rw [hs] at h; simp at h
  | some e =>
    rw [hs] at h
    dsimp only at h
    by_cases hact : e.status ≠ .Active
    · simp [hact] at h
    · rw [if_neg hact] at h
      push_neg at hact
      by_cases hall : verify_all_released e.milestones
      · rw [if_neg (by simpa using hall)] at h
        simp only [Except.ok.injEq] at h
        exact ⟨e, rfl, hact, by simpa using hall, h.symm⟩
      · simp [hall] at h

theorem get_escrow_ok (s : Store) (id : Nat) (e : Escrow)
    (h : get_escrow s id = .ok e) : s.escrows id = some e := by
  unfold get_escrow at h
  cases hs : s.escrows id with
  | none => rw [hs] at h; simp at h
  | some e' => rw [hs] at h; simp only [Except.ok.injEq] at h; rw [h]

end VaultixEscrow

/-! ## Inductive store invariant -/

theorem checked_add_some (a b t : Int) (h : checked_add a b = some t) :
    t = a + b ∧ i128Min ≤ t ∧ t ≤ i128Max := by
  unfold checked_add at h
  by_cases hc : i128Min ≤ a + b ∧ a + b ≤ i128Max
  · rw [if_pos hc] at h
    cases h
    exact ⟨rfl, hc.1, hc.2⟩
  · simp [hc] at h

theorem releasedSum_of_no_released (ms : List Milestone)
    (h : ∀ m ∈ ms, m.status ≠ .Released) : releasedSum ms = 0 := by
  induction ms with
  | nil => rfl
  | cons m rest ih =>
    have hm := h m (List.mem_cons_self m rest)
    simp [releasedSum, hm, ih (fun x hx => h x (List.mem_cons_of_mem m hx))]

/-- The properties of a single stored escrow that every operation
preserves: the released-sum ledger equation, the fixed total, positivity
and range of the amounts, and the absence of disputed milestones while the
escrow is still `Active`. -/
def EscrowInv (e : Escrow) : Prop :=
  e.total_released = releasedSum e.milestones ∧
  e.total_amount = amountSum e.milestones ∧
  (∀ m ∈ e.milestones, 0 < m.amount) ∧
  e.total_amount ≤ i128Max ∧
  (e.status = .Active → ∀ m ∈ e.milestones, m.status ≠ .Disputed)

/-- Every stored escrow satisfies `EscrowInv`. -/
def StoreInv (s : Store) : Prop :=
  ∀ id e, s.escrows id = some e → EscrowInv e

theorem storeInv_initial : StoreInv initialStore := by
  intro id e h
  simp [initialStore] at h

theorem storeInv_setEscrow (s : Store) (id : Nat) (e : Escrow)
    (hs : StoreInv s) (he : EscrowInv e) : StoreInv (setEscrow s id e) := by
  intro id' e' h
  by_cases hid : id' = id
  · subst hid
    rw [setEscrow_self] at h
    cases h
    exact he
  · rw [setEscrow_other s id id' e hid] at h
    exact hs id' e' h

theorem escrowInv_total_le (e : Escrow) (h : EscrowInv e) :
    e.total_released ≤ e.total_amount := by
  obtain ⟨h1, h2, h3, _⟩ := h
  rw [h1, h2]
  exact releasedSum_le_amountSum e.milestones h3

/-- Each operation preserves the store invariant. -/
theorem storeInv_step (s : Store) (op : Op) (h : StoreInv s) :
    StoreInv (step s op) := by
  unfold step
  cases hrun : runOp s op with
  | error _ => exact h
  | ok s' =>
    cases op with
    | init a =>
      obtain ⟨_, rfl⟩ := VaultixEscrow.init_ok s a s' hrun
      intro id e hid
      exact h id e hid
    | create id d r ms =>
      obtain ⟨hnone, t, hv, rfl⟩ := VaultixEscrow.create_escrow_ok s id d r ms s' hrun
      obtain ⟨ht, hpos, _, hmax⟩ := validate_milestones_ok ms t hv
      refine storeInv_setEscrow s id _ h ⟨?_, ?_, ?_, ?_, ?_⟩
      · dsimp only
        rw [releasedSum_of_no_released]
        intro m hm
        obtain ⟨x, _, rfl⟩ := List.mem_map.mp hm
        simp
      · dsimp only
        rw [amountSum_map_of_amount_eq ms
          (fun m => { m with status := .Pending }) (fun m => rfl), ht]
      · exact pos_amount_map ms
          (fun m => { m with status := .Pending }) (fun m => rfl) hpos
      · dsimp only
        omega
      · intro _ m hm
        obtain ⟨x, _, rfl⟩ := List.mem_map.mp hm
        simp
    | release id idx =>
      obtain ⟨e, m, t, hid, hact, hm, hnr, hadd, rfl⟩ :=
        VaultixEscrow.release_milestone_ok s id idx s' hrun
      obtain ⟨hinv1, hinv2, hinv3, hinv4, hinv5⟩ := h id e hid
      obtain ⟨htadd, _, _⟩ := checked_add_some _ _ _ hadd
      refine storeInv_setEscrow s id _ h ⟨?_, ?_, ?_, ?_, ?_⟩
      · dsimp only
        rw [releasedSum_set_release e.milestones idx m hm hnr, htadd, hinv1]
      · dsimp only
        rw [amountSum_set e.milestones idx m
          { m with status := .Released } hm rfl, hinv2]
      · exact pos_amount_set e.milestones idx m
          { m with status := .Released } hm rfl hinv3
      · exact hinv4
      · intro _ x hx
        rcases List.mem_or_eq_of_mem_set hx with hx | rfl
        · exact hinv5 hact x hx
        · simp
    | dispute id c =>
      obtain ⟨e, hid, _, hact, rfl⟩ := VaultixEscrow.raise_dispute_ok s id c s' hrun
      obtain ⟨hinv1, hinv2, hinv3, hinv4, _⟩ := h id e hid
      refine storeInv_setEscrow s id _ h ⟨?_, ?_, ?_, ?_, ?_⟩
      · dsimp only
        rw [releasedSum_map_of_preserved e.milestones _ ?_ ?_, hinv1]
        · intro m
          by_cases hp : m.status = .Pending <;> simp [hp]
        · intro m
          by_cases hp : m.status = .Pending <;> simp [hp]
      · dsimp only
        rw [amountSum_map_of_amount_eq e.milestones _ ?_, hinv2]
        intro m
        by_cases hp : m.status = .Pending <;> simp [hp]
      · refine pos_amount_map e.milestones _ ?_ hinv3
        intro m
        by_cases hp : m.status = .Pending <;> simp [hp]
      · exact hinv4
      · intro hc
        simp at hc
    | resolve id w =>
      obtain ⟨a, e, _, hid, hdis, _, hbr⟩ := VaultixEscrow.resolve_dispute_ok s id w s' hrun
      obtain ⟨hinv1, hinv2, hinv3, hinv4, _⟩ := h id e hid
      rcases hbr with ⟨_, rfl⟩ | ⟨_, _, rfl⟩
      · refine storeInv_setEscrow s id _ h ⟨?_, ?_, ?_, ?_, ?_⟩
        · dsimp only
          rw [releasedSum_map_of_forced e.milestones _ ?_ ?_, hinv2]
          · intro m
            by_cases hp : m.status = .Released <;> simp [hp]
          · intro m
            by_cases hp : m.status = .Released <;> simp [hp]
        · dsimp only
          rw [amountSum_map_of_amount_eq e.milestones _ ?_, hinv2]
          intro m
          by_cases hp : m.status = .Released <;> simp [hp]
        · refine pos_amount_map e.milestones _ ?_ hinv3
          intro m
          by_cases hp : m.status = .Released <;> simp [hp]
        · exact hinv4
        · intro hc
          simp at hc
      · refine storeInv_setEscrow s id _ h ⟨?_, ?_, ?_, ?_, ?_⟩
        · dsimp only
          rw [releasedSum_map_of_preserved e.milestones _ ?_ ?_, hinv1]
          · intro m
            by_cases hp : m.status = .Pending ∨ m.status = .Disputed <;> simp [hp]
          · intro m
            by_cases hp : m.status = .Pending ∨ m.status = .Disputed
            · rw [if_pos hp]
              constructor
              · intro hcon
                simp at hcon
              · intro hcon
                rcases hp with hp | hp <;> rw [hp] at hcon <;> cases hcon
            · simp [hp]
        · dsimp only
          rw [amountSum_map_of_amount_eq e.milestones _ ?_, hinv2]
          intro m
          by_cases hp : m.status = .Pending ∨ m.status = .Disputed <;> simp [hp]
        · refine pos_amount_map e.milestones _ ?_ hinv3
          intro m
          by_cases hp : m.status = .Pending ∨ m.status = .Disputed <;> simp [hp]
        · exact hinv4
        · intro hc
          simp at hc
    | cancel id =>
      obtain ⟨e, hid, hact, _, rfl⟩ := VaultixEscrow.cancel_escrow_ok s id s' hrun
      obtain ⟨hinv1, hinv2, hinv3, hinv4, _⟩ := h id e hid
      refine storeInv_setEscrow s id _ h ⟨hinv1, hinv2, hinv3, hinv4, ?_⟩
      intro hc
      simp at hc
    | complete id =>
      obtain ⟨e, hid, hact, _, rfl⟩ := VaultixEscrow.complete_escrow_ok s id s' hrun
      obtain ⟨hinv1, hinv2, hinv3, hinv4, _⟩ := h id e hid
      refine storeInv_setEscrow s id _ h ⟨hinv1, hinv2, hinv3, hinv4, ?_⟩
      intro hc
      simp at hc
    | get id =>
      simp only [runOp] at hrun
      cases hg : VaultixEscrow.get_escrow s id with
      | error e => rw [hg] at hrun; simp at hrun
      | ok e =>
        rw [hg] at hrun
        cases hrun
        exact h

theorem storeInv_runOps (s : Store) (ops : List Op) (h : StoreInv s) :
    StoreInv (runOps s ops) := by
  induction ops generalizing s with
  | nil => exact h
  | cons op rest ih => exact ih (step s op) (storeInv_step s op h)

/-- Every reachable store satisfies the invariant. -/
theorem storeInv_reachable (s : Store) (h : Reachable s) : StoreInv s := by
  obtain ⟨ops, rfl⟩ := h
  exact storeInv_runOps initialStore ops storeInv_initial

/-! ## Concrete fixtures used by witnesses and counterexamples -/

/-- A single pending milestone worth 5. -/
def milestone5 : Milestone :=
  { amount := 5, status := .Pending, description := "a" }

/-- The escrow record `create_escrow 0 1 2 [milestone5]` stores. -/
def escrowA : Escrow :=
  { depositor := 1
    recipient := 2
    total_amount := 5
    total_released := 0
    milestones := [milestone5]
    status := .Active
    resolution := .None }

/-- Store holding exactly `escrowA` under id 0. -/
def storeA : Store := step initialStore (Op.create 0 1 2 [milestone5])

theorem storeA_escrow : storeA.escrows 0 = some escrowA := by decide

/-! ## Claim C1 -/

/-- Claim C1: in every reachable store, every stored escrow satisfies
`total_released = sum of the amounts of its Released milestones` and
`total_released ≤ total_amount`. -/
theorem vaultix_C1 (s : Store) (h : Reachable s) (id : Nat) (e : Escrow)
    (he : s.escrows id = some e) :
    e.total_released = releasedSum e.milestones ∧
    e.total_released ≤ e.total_amount := by
  have hinv := storeInv_reachable s h id e he
  exact ⟨hinv.1, escrowInv_total_le e hinv⟩

/-- Claim C1 witness: the invariant holds concretely for the escrow stored
by one `create_escrow` call. -/
theorem vaultix_C1_witness :
    escrowA.total_released = releasedSum escrowA.milestones ∧
    escrowA.total_released ≤ escrowA.total_amount :=
  vaultix_C1 storeA ⟨[Op.create 0 1 2 [milestone5]], rfl⟩ 0 escrowA
    (by decide)

/-! ## Claim C10 -/

/-- Claim C10: in every reachable store, an escrow whose status is still
`Active` has no `Disputed` milestone: each milestone is `Pending` or
`Released`. -/
theorem vaultix_C10 (s : Store) (h : Reachable s) (id : Nat) (e : Escrow)
    (he : s.escrows id = some e) (hact : e.status = .Active) :
    ∀ m ∈ e.milestones, m.status = .Pending ∨ m.status = .Released := by
  have hinv := storeInv_reachable s h id e he
  intro m hm
  have hnd := hinv.2.2.2.2 hact m hm
  cases hs : m.status
  · exact Or.inl rfl
  · exact Or.inr rfl
  · exact absurd hs hnd

/-- Claim C10 witness: concretely, the milestone of the freshly created
escrow is `Pending` or `Released`. -/
theorem vaultix_C10_witness :
    milestone5.status = .Pending ∨ milestone5.status = .Released :=
  vaultix_C10 storeA ⟨[Op.create 0 1 2 [milestone5]], rfl⟩ 0 escrowA
    (by decide) rfl milestone5 (by decide)

/-! ## Claim C4 -/

/-- Claim C4: whenever any of the eight entry points returns an error, the
store after the call — every escrow record and the admin slot — equals the
store before it. -/
theorem vaultix_C4 (s : Store) (op : Op) (err : Error)
    (h : runOp s op = .error err) :
    (∀ id, (step s op).escrows id = s.escrows id) ∧
      (step s op).admin = s.admin := by
  unfold step
  rw [h]
  exact ⟨fun _ => rfl, rfl⟩

/-- Claim C4 witness: a failing `release_milestone` (unknown id) leaves the
empty store untouched. -/
theorem vaultix_C4_witness :
    (∀ id, (step initialStore (Op.release 0 0)).escrows id =
      initialStore.escrows id) ∧
    (step initialStore (Op.release 0 0)).admin = initialStore.admin :=
  vaultix_C4 initialStore (Op.release 0 0) .EscrowNotFound rfl

/-! ## Claim C3 -/

/-- Any single operation leaves the record of an escrow that is neither
`Active` nor `Disputed` untouched. -/
theorem step_keeps_terminal (s : Store) (id : Nat) (e : Escrow)
    (hs : s.escrows id = some e) (hna : e.status ≠ .Active)
    (hnd : e.status ≠ .Disputed) (op : Op) :
    (step s op).escrows id = some e := by
  unfold step
  cases hrun : runOp s op with
  | error _ => exact hs
  | ok s' =>
    cases op with
    | init a =>
      obtain ⟨_, rfl⟩ := VaultixEscrow.init_ok _ _ _ hrun
      exact hs
    | create id' d r ms =>
      obtain ⟨hnone, _, _, rfl⟩ :=
        VaultixEscrow.create_escrow_ok _ _ _ _ _ _ hrun
      by_cases hid : id = id'
      · subst hid
        rw [hs] at hnone
        cases hnone
      · rw [setEscrow_other _ _ _ _ hid]
        exact hs
    | release id' idx =>
      obtain ⟨e', m, t, hid', hact, _, _, _, rfl⟩ :=
        VaultixEscrow.release_milestone_ok _ _ _ _ hrun
      by_cases hid : id = id'
      · subst hid
        rw [hs] at hid'
        injection hid' with he
        subst he
        exact absurd hact hna
      · rw [setEscrow_other _ _ _ _ hid]
        exact hs
    | dispute id' c =>
      obtain ⟨e', hid', _, hact, rfl⟩ :=
        VaultixEscrow.raise_dispute_ok _ _ _ _ hrun
      by_cases hid : id = id'
      · subst hid
        rw [hs] at hid'
        injection hid' with he
        subst he
        exact absurd hact hna
      · rw [setEscrow_other _ _ _ _ hid]
        exact hs
    | resolve id' w =>
      obtain ⟨a, e', _, hid', hdis, _, hbr⟩ :=
        VaultixEscrow.resolve_dispute_ok _ _ _ _ hrun
      by_cases hid : id = id'
      · subst hid
        rw [hs] at hid'
        injection hid' with he
        subst he
        exact absurd hdis hnd
      · rcases hbr with ⟨_, rfl⟩ | ⟨_, _, rfl⟩ <;>
          rw [setEscrow_other _ _ _ _ hid] <;> exact hs
    | cancel id' =>
      obtain ⟨e', hid', hact, _, rfl⟩ :=
        VaultixEscrow.cancel_escrow_ok _ _ _ hrun
      by_cases hid : id = id'
      · subst hid
        rw [hs] at hid'
        injection hid' with he
        subst he
        exact absurd hact hna
      · rw [setEscrow_other _ _ _ _ hid]
        exact hs
    | complete id' =>
      obtain ⟨e', hid', hact, _, rfl⟩ :=
        VaultixEscrow.complete_escrow_ok _ _ _ hrun
      by_cases hid : id = id'
      · subst hid
        rw [hs] at hid'
        injection hid' with he
        subst he
        exact absurd hact hna
      · rw [setEscrow_other _ _ _ _ hid]
        exact hs
    | get id' =>
      simp only [runOp] at hrun
      cases hg : VaultixEscrow.get_escrow s id' with
      | error e' => rw [hg] at hrun; simp at hrun
      | ok e' =>
        rw [hg] at hrun
        cases hrun
        exact hs

/-- Claim C3: once a stored escrow is `Completed`, `Cancelled`, or
`Resolved`, every operation leaves its record unchanged; each of the six
mutating entry points targeting it fails, and `get_escrow` is a pure read
returning it. -/
theorem vaultix_C3 (s : Store) (id : Nat) (e : Escrow)
    (hs : s.escrows id = some e)
    (hterm : e.status = .Completed ∨ e.status = .Cancelled ∨
      e.status = .Resolved) :
    (∀ op : Op, (step s op).escrows id = some e) ∧
    (∀ d r ms, ∃ er, VaultixEscrow.create_escrow s id d r ms = .error er) ∧
    (∀ idx, ∃ er, VaultixEscrow.release_milestone s id idx = .error er) ∧
    (∀ c, ∃ er, VaultixEscrow.raise_dispute s id c = .error er) ∧
    (∀ w, ∃ er, VaultixEscrow.resolve_dispute s id w = .error er) ∧
    (∃ er, VaultixEscrow.cancel_escrow s id = .error er) ∧
    (∃ er, VaultixEscrow.complete_escrow s id = .error er) ∧
    VaultixEscrow.get_escrow s id = .ok e := by
  have hna : e.status ≠ .Active := by
    rcases hterm with h | h | h <;> rw [h] <;> simp
  have hnd : e.status ≠ .Disputed := by
    rcases hterm with h | h | h <;> rw [h] <;> simp
  refine ⟨fun op => step_keeps_terminal s id e hs hna hnd op,
    ?_, ?_, ?_, ?_, ?_, ?_, ?_⟩
  · intro d r ms
    refine ⟨.EscrowAlreadyExists, ?_⟩
    unfold VaultixEscrow.create_escrow
    rw [hs]
    rfl
  · intro idx
    refine ⟨.EscrowNotActive, ?_⟩
    unfold VaultixEscrow.release_milestone
    rw [hs]
    dsimp only
    rw [if_pos hna]
  · intro c
    unfold VaultixEscrow.raise_dispute
    rw [hs]
    dsimp only
    by_cases hauth : c ≠ e.depositor ∧ c ≠ e.recipient
    · rw [if_pos hauth]
      exact ⟨.UnauthorizedAccess, rfl⟩
    · rw [if_neg hauth, if_neg hnd, if_pos hna]
      exact ⟨.InvalidEscrowStatus, rfl⟩
  · intro w
    unfold VaultixEscrow.resolve_dispute
    cases ha : s.admin with
    | none => exact ⟨.AdminNotInitialized, rfl⟩
    | some a =>
      dsimp only
      rw [hs]
      dsimp only
      rw [if_pos hnd]
      exact ⟨.InvalidEscrowStatus, rfl⟩
  · unfold VaultixEscrow.cancel_escrow
    rw [hs]
    dsimp only
    rw [if_pos hna]
    exact ⟨.InvalidEscrowStatus, rfl⟩
  · unfold VaultixEscrow.complete_escrow
    rw [hs]
    dsimp only
    rw [if_pos hna]
    exact ⟨.InvalidEscrowStatus, rfl⟩
  · unfold VaultixEscrow.get_escrow
    rw [hs]

/-- Store holding the cancelled escrow `{ escrowA with status := Cancelled }`
under id 0. -/
def storeCancelled : Store :=
  runOps initialStore [Op.create 0 1 2 [milestone5], Op.cancel 0]

/-- Claim C3 witness: on the concrete cancelled escrow, `cancel_escrow`
fails again and `release_milestone` leaves the record in place. -/
theorem vaultix_C3_witness :
    (step storeCancelled (Op.release 0 0)).escrows 0 =
      some { escrowA with status := .Cancelled } := by
  have h := vaultix_C3 storeCancelled 0 { escrowA with status := .Cancelled }
    (by decide) (Or.inr (Or.inl rfl))
  exact h.1 (Op.release 0 0)

/-! ## Claim C5 -/

/-- Claim C5: on an `Active` escrow, `raise_dispute` called by the
depositor or the recipient succeeds; every `Pending` milestone becomes
`Disputed`, every other milestone (in particular every `Released` one) is
unchanged, the escrow status becomes `Disputed`, the resolution becomes
`None`, and `total_released` is unchanged. -/
theorem vaultix_C5 (s : Store) (id caller : Nat) (e : Escrow)
    (hs : s.escrows id = some e) (hact : e.status = .Active)
    (hcaller : caller = e.depositor ∨ caller = e.recipient) :
    ∃ s' e', VaultixEscrow.raise_dispute s id caller = .ok s' ∧
      s'.escrows id = some e' ∧
      e'.status = .Disputed ∧
      e'.resolution = .None ∧
      e'.total_released = e.total_released ∧
      e'.milestones.length = e.milestones.length ∧
      (∀ (i : Nat) (m : Milestone), e.milestones[i]? = some m →
        (m.status = .Pending →
          e'.milestones[i]? = some { m with status := .Disputed }) ∧
        (m.status ≠ .Pending → e'.milestones[i]? = some m)) := by
  have hnauth : ¬ (caller ≠ e.depositor ∧ caller ≠ e.recipient) := by tauto
  have hok : VaultixEscrow.raise_dispute s id caller = .ok (setEscrow s id
      { e with
          milestones := e.milestones.map (fun m =>
            if m.status = .Pending then { m with status := .Disputed } else m)
          status := .Disputed
          resolution := .None }) := by
    unfold VaultixEscrow.raise_dispute
    rw [hs]
    dsimp only
    rw [if_neg hnauth, if_neg (by rw [hact]; simp),
      if_neg (by rw [hact]; simp)]
  refine ⟨setEscrow s id
      { e with
          milestones := e.milestones.map (fun m =>
            if m.status = .Pending then { m with status := .Disputed } else m)
          status := .Disputed
          resolution := .None },
    { e with
        milestones := e.milestones.map (fun m =>
          if m.status = .Pending then { m with status := .Disputed } else m)
        status := .Disputed
        resolution := .None },
    hok, setEscrow_self _ _ _, rfl, rfl, rfl, by simp, ?_⟩
  intro i m hm
  constructor
  · intro hp
    dsimp only
    rw [List.getElem?_map, hm]
    simp [hp]
  · intro hp
    dsimp only
    rw [List.getElem?_map, hm]
    simp [hp]

/-- Claim C5 witness: raising a dispute on the concrete active escrow
succeeds. -/
theorem vaultix_C5_witness :
    (VaultixEscrow.raise_dispute storeA 0 1).isOk = true := by
  obtain ⟨s', e', hok, _⟩ :=
    vaultix_C5 storeA 0 1 escrowA (by decide) rfl (Or.inl rfl)
  rw [hok]
  rfl

/-! ## Claim C7 -/

/-- Claim C7: immediately after a successful `raise_dispute`, every
`release_milestone` call on that escrow, at any index, fails with
`EscrowNotActive` and leaves the store unchanged. -/
theorem vaultix_C7 (s s' : Store) (id c : Nat)
    (h : VaultixEscrow.raise_dispute s id c = .ok s') (idx : Nat) :
    VaultixEscrow.release_milestone s' id idx = .error .EscrowNotActive ∧
      step s' (Op.release id idx) = s' := by
  obtain ⟨e, hs, _, _, rfl⟩ := VaultixEscrow.raise_dispute_ok s id c s' h
  have hrel : VaultixEscrow.release_milestone (setEscrow s id
      { e with
          milestones := e.milestones.map (fun m =>
            if m.status = .Pending then { m with status := .Disputed } else m)
          status := .Disputed
          resolution := .None }) id idx = .error .EscrowNotActive := by
    unfold VaultixEscrow.release_milestone
    rw [setEscrow_self]
    dsimp only
    rw [if_pos (by simp)]
  refine ⟨hrel, ?_⟩
  have hrun : runOp (setEscrow s id
      { e with
          milestones := e.milestones.map (fun m =>
            if m.status = .Pending then { m with status := .Disputed } else m)
          status := .Disputed
          resolution := .None }) (Op.release id idx) =
      .error .EscrowNotActive := hrel
  unfold step
  rw [hrun]

/-- The concrete store after raising a dispute on `storeA`. -/
def storeADis : Store := step storeA (Op.dispute 0 1)

/-- Claim C7 witness: after the concrete dispute, releasing index 0 fails
with `EscrowNotActive` and changes nothing. -/
theorem vaultix_C7_witness :
    VaultixEscrow.release_milestone storeADis 0 0 =
      .error .EscrowNotActive ∧
      step storeADis (Op.release 0 0) = storeADis :=
  vaultix_C7 storeA storeADis 0 1 rfl 0

/-! ## Claim C9 -/

/-- Claim C9: under the stated invariants — `total_released` equals the
sum of `Released` amounts and `total_amount` is the overflow-checked
validated total of the milestones — the checked addition in
`release_milestone` cannot overflow, and `release_milestone` never returns
`InvalidMilestoneAmount`. -/
theorem vaultix_C9 (s : Store) (id : Nat) (e : Escrow)
    (hs : s.escrows id = some e)
    (h1 : e.total_released = releasedSum e.milestones)
    (h2 : validate_milestones e.milestones = .ok e.total_amount) :
    (∀ (idx : Nat) (m : Milestone), e.milestones[idx]? = some m →
      m.status ≠ .Released →
      checked_add e.total_released m.amount ≠ none) ∧
    (∀ idx : Nat, VaultixEscrow.release_milestone s id idx ≠
      .error .InvalidMilestoneAmount) := by
  obtain ⟨ht, hpos, _, hmax⟩ := validate_milestones_ok _ _ h2
  have hkey : ∀ (idx : Nat) (m : Milestone), e.milestones[idx]? = some m →
      m.status ≠ .Released →
      checked_add e.total_released m.amount =
        some (e.total_released + m.amount) := by
    intro idx m hm hrel
    have hr0 : 0 ≤ releasedSum e.milestones := releasedSum_nonneg _ hpos
    have hma : 0 < m.amount := hpos m (List.getElem?_mem hm)
    have hset := releasedSum_set_release e.milestones idx m hm hrel
    have hle := releasedSum_le_amountSum
      (e.milestones.set idx { m with status := .Released })
      (pos_amount_set e.milestones idx m { m with status := .Released }
        hm rfl hpos)
    have hamt := amountSum_set e.milestones idx m
      { m with status := .Released } hm rfl
    have hmin0 : i128Min < 0 := by unfold i128Min; norm_num
    unfold checked_add
    rw [if_pos ?_]
    constructor
    · rw [h1]
      linarith
    · rw [h1]
      linarith [ht, hmax]
  refine ⟨fun idx m hm hrel => by rw [hkey idx m hm hrel]; simp, ?_⟩
  intro idx
  unfold VaultixEscrow.release_milestone
  rw [hs]
  dsimp only
  by_cases hact : e.status ≠ .Active
  · rw [if_pos hact]
    simp
  · rw [if_neg hact]
    by_cases hlen : idx ≥ e.milestones.length
    · rw [if_pos hlen]
      simp
    · rw [if_neg hlen]
      cases hm : e.milestones[idx]? with
      | none => simp
      | some m =>
        dsimp only
        by_cases hrel : m.status = .Released
        · rw [if_pos hrel]
          simp
        · rw [if_neg hrel]
          rw [hkey idx m hm hrel]
          simp

/-- Claim C9 witness: the concrete fresh escrow satisfies the invariants
and `release_milestone` at index 0 does not fail with
`InvalidMilestoneAmount`. -/
theorem vaultix_C9_witness :
    VaultixEscrow.release_milestone storeA 0 0 ≠
      .error .InvalidMilestoneAmount :=
  (vaultix_C9 storeA 0 escrowA (by decide) (by decide) (by rfl)).2 0

/-! ## Claim C2 -/

/-- Forcing a milestone to `Released` (the recipient-wins map of
`resolve_dispute`) always yields the milestone with status `Released`. -/
theorem forceRelease_eq (m : Milestone) :
    (if m.status ≠ .Released then { m with status := .Released } else m) =
      { m with status := .Released } := by
  by_cases h : m.status = .Released
  · obtain ⟨a, st, d⟩ := m
    simp only at h
    subst h
    simp
  · simp [h]

/-- A store, reached by `init`, `create_escrow` and `raise_dispute`,
holding an escrow whose depositor and recipient are both address 1. -/
def storeSelf : Store :=
  runOps initialStore [Op.init 9, Op.create 0 1 1 [milestone5], Op.dispute 0 1]

/-- The store after resolving that dispute with winner 1. -/
def storeSelfRes : Store := step storeSelf (Op.resolve 0 1)

/-- Claim C2 counterexample: in `storeSelf` the escrow is `Disputed` and
the winner 1 equals its depositor, `resolve_dispute` succeeds, yet the
resolution becomes `Recipient` (not `Depositor`) and `total_released`
changes from 0 to 5: when depositor and recipient coincide, the code takes
the recipient branch, contradicting the claim's depositor clause. -/
theorem vaultix_C2_counterexample :
    (storeSelf.escrows 0).map Escrow.status = some .Disputed ∧
    (storeSelf.escrows 0).map Escrow.depositor = some 1 ∧
    (storeSelf.escrows 0).map Escrow.total_released = some 0 ∧
    (VaultixEscrow.resolve_dispute storeSelf 0 1).isOk = true ∧
    (storeSelfRes.escrows 0).map Escrow.resolution = some .Recipient ∧
    (storeSelfRes.escrows 0).map Escrow.total_released = some 5 :=
  ⟨rfl, rfl, rfl, rfl, rfl, rfl⟩

/-- Claim C2 (amended): on a `Disputed` escrow with an initialized admin
and winner equal to depositor or recipient, `resolve_dispute` succeeds and
sets status to `Resolved`; if the winner equals the recipient, every
milestone becomes `Released`, `total_released` becomes `total_amount` and
the resolution is `Recipient`; if the winner is not the recipient (hence
the depositor), every `Pending` or `Disputed` milestone becomes
`Disputed`, `Released` milestones and `total_released` are unchanged, and
the resolution is `Depositor`. -/
theorem vaultix_C2 (s : Store) (id w a : Nat) (e : Escrow)
    (ha : s.admin = some a) (hs : s.escrows id = some e)
    (hd : e.status = .Disputed) (hw : w = e.depositor ∨ w = e.recipient) :
    ∃ s' e', VaultixEscrow.resolve_dispute s id w = .ok s' ∧
      s'.escrows id = some e' ∧ e'.status = .Resolved ∧
      (w = e.recipient →
        e'.resolution = .Recipient ∧
        e'.total_released = e.total_amount ∧
        e'.milestones.length = e.milestones.length ∧
        (∀ (i : Nat) (m : Milestone), e.milestones[i]? = some m →
          e'.milestones[i]? = some { m with status := .Released })) ∧
      (w ≠ e.recipient →
        e'.resolution = .Depositor ∧
        e'.total_released = e.total_released ∧
        e'.milestones.length = e.milestones.length ∧
        (∀ (i : Nat) (m : Milestone), e.milestones[i]? = some m →
          ((m.status = .Pending ∨ m.status = .Disputed) →
            e'.milestones[i]? = some { m with status := .Disputed }) ∧
          (m.status = .Released → e'.milestones[i]? = some m))) := by
  have hnw : ¬ (w ≠ e.depositor ∧ w ≠ e.recipient) := by tauto
  by_cases hrec : w = e.recipient
  · have hok : VaultixEscrow.resolve_dispute s id w = .ok (setEscrow s id
        { e with
            milestones := e.milestones.map (fun m =>
              if m.status ≠ .Released then { m with status := .Released }
              else m)
            total_released := e.total_amount
            resolution := .Recipient
            status := .Resolved }) := by
      unfold VaultixEscrow.resolve_dispute
      rw [ha]
      dsimp only
      rw [hs]
      dsimp only
      rw [if_neg (by rw [hd]; simp), if_neg hnw, if_pos hrec]
    refine ⟨_, _, hok, setEscrow_self _ _ _, rfl, ?_, fun hc => absurd hrec hc⟩
    intro _
    refine ⟨rfl, rfl, by simp, ?_⟩
    intro i m hm
    dsimp only
    rw [List.getElem?_map, hm, Option.map_some', forceRelease_eq]
  · have hok : VaultixEscrow.resolve_dispute s id w = .ok (setEscrow s id
        { e with
            milestones := e.milestones.map (fun m =>
              if m.status = .Pending ∨ m.status = .Disputed then
                { m with status := .Disputed }
              else m)
            resolution := .Depositor
            status := .Resolved }) := by
      unfold VaultixEscrow.resolve_dispute
      rw [ha]
      dsimp only
      rw [hs]
      dsimp only
      rw [if_neg (by rw [hd]; simp), if_neg hnw, if_neg hrec]
    refine ⟨_, _, hok, setEscrow_self _ _ _, rfl, fun hc => absurd hc hrec, ?_⟩
    intro _
    refine ⟨rfl, rfl, by simp, ?_⟩
    intro i m hm
    constructor
    · intro hpd
      dsimp only
      rw [List.getElem?_map, hm]
      simp [hpd]
    · intro hmr
      dsimp only
      rw [List.getElem?_map, hm]
      have : ¬ (m.status = .Pending ∨ m.status = .Disputed) := by
        rw [hmr]
        simp
      simp [this]

/-- The escrow stored in `storeDis`: the disputed version of `escrowA`. -/
def escrowDis : Escrow :=
  { depositor := 1
    recipient := 2
    total_amount := 5
    total_released := 0
    milestones := [{ amount := 5, status := .Disputed, description := "a" }]
    status := .Disputed
    resolution := .None }

/-- A store, reached by `init`, `create_escrow` and `raise_dispute`,
holding the disputed escrow `escrowDis` (distinct parties 1 and 2). -/
def storeDis : Store :=
  runOps initialStore [Op.init 9, Op.create 0 1 2 [milestone5], Op.dispute 0 1]

/-- Claim C2 witness: resolving the concrete dispute for the recipient
succeeds. -/
theorem vaultix_C2_witness :
    (VaultixEscrow.resolve_dispute storeDis 0 2).isOk = true := by
  obtain ⟨s', e', hok, _⟩ :=
    vaultix_C2 storeDis 0 2 9 escrowDis rfl (by decide) rfl (Or.inr rfl)
  rw [hok]
  rfl

/-! ## Claim C6 -/

/-- The loop of `validate_milestones` never reports `VectorTooLarge`; that
error comes only from the length check. -/
theorem validateTotal_ne_tooLarge (ms : List Milestone) (acc : Int) :
    validateTotal ms acc ≠ .error .VectorTooLarge := by
  induction ms generalizing acc with
  | nil => simp [validateTotal]
  | cons m rest ih =>
    intro h
    unfold validateTotal at h
    by_cases hm : m.amount ≤ 0
    · rw [if_pos hm] at h
      simp at h
    · rw [if_neg hm] at h
      cases hadd : checked_add acc m.amount with
      | none => rw [hadd] at h; simp at h
      | some t => rw [hadd] at h; exact ih t h

/-- Claim C6 counterexample: the empty milestone vector has length 0 < 1,
yet `create_escrow` does not fail with `VectorTooLarge`: it succeeds and
stores an escrow (with `total_amount = 0`). -/
theorem vaultix_C6_counterexample :
    (VaultixEscrow.create_escrow initialStore 0 1 2 []).isOk = true ∧
    ((step initialStore (Op.create 0 1 2 [])).escrows 0).isSome = true :=
  ⟨rfl, rfl⟩

/-- Claim C6 (amended): only the upper bound is enforced: for a fresh id,
a vector longer than 20 makes `create_escrow` fail with `VectorTooLarge`
and store nothing, while for any vector of length at most 20 (the empty
vector included) the length check passes — `VectorTooLarge` cannot
occur. -/
theorem vaultix_C6 (s : Store) (id d r : Nat) (ms : List Milestone)
    (hfresh : s.escrows id = none) :
    (ms.length > 20 →
      VaultixEscrow.create_escrow s id d r ms = .error .VectorTooLarge ∧
      step s (Op.create id d r ms) = s) ∧
    (ms.length ≤ 20 → validate_milestones ms ≠ .error .VectorTooLarge) := by
  constructor
  · intro hlen
    have herr : VaultixEscrow.create_escrow s id d r ms =
        .error .VectorTooLarge := by
      unfold VaultixEscrow.create_escrow
      rw [hfresh]
      dsimp only
      rw [if_neg (by simp)]
      unfold validate_milestones
      rw [if_pos hlen]
    refine ⟨herr, ?_⟩
    have hrun : runOp s (Op.create id d r ms) = .error .VectorTooLarge := herr
    unfold step
    rw [hrun]
  · intro hlen hcon
    unfold validate_milestones at hcon
    rw [if_neg (by omega)] at hcon
    exact validateTotal_ne_tooLarge ms 0 hcon

/-- A vector of 21 milestones. -/
def ms21 : List Milestone := List.replicate 21 milestone5

/-- Claim C6 witness: creating with 21 milestones fails with
`VectorTooLarge`. -/
theorem vaultix_C6_witness :
    VaultixEscrow.create_escrow initialStore 0 1 2 ms21 =
      .error .VectorTooLarge := by
  have h := vaultix_C6 initialStore 0 1 2 ms21 rfl
  exact (h.1 (by decide)).1

/-! ## Claim C8 -/

/-- Claim C8 counterexample: `create_escrow` with depositor = recipient =
7 succeeds and persists an escrow whose two parties are equal — the
distinctness stated by the claim is never checked. -/
theorem vaultix_C8_counterexample :
    (step initialStore (Op.create 0 7 7 [milestone5])).escrows 0 =
      some { depositor := 7
             recipient := 7
             total_amount := 5
             total_released := 0
             milestones := [milestone5]
             status := .Active
             resolution := .None } := by decide

/-- Claim C8 (amended): `create_escrow` persists the depositor and
recipient exactly as supplied, with no distinctness requirement; in
particular an escrow with depositor = recipient can be stored. -/
theorem vaultix_C8 (s : Store) (id d r : Nat) (ms : List Milestone)
    (s' : Store) (h : VaultixEscrow.create_escrow s id d r ms = .ok s') :
    ∃ e, s'.escrows id = some e ∧ e.depositor = d ∧ e.recipient = r := by
  obtain ⟨_, t, _, rfl⟩ := VaultixEscrow.create_escrow_ok s id d r ms s' h
  exact ⟨_, setEscrow_self _ _ _, rfl, rfl⟩

/-- The store created with equal parties, used to witness claim C8. -/
def storeC8 : Store := step initialStore (Op.create 0 7 7 [milestone5])

/-- Claim C8 witness: applied with depositor = recipient = 7. -/
theorem vaultix_C8_witness :
    ∃ e, storeC8.escrows 0 = some e ∧ e.depositor = 7 ∧ e.recipient = 7 :=
  vaultix_C8 initialStore 0 7 7 [milestone5] storeC8 rfl
